import Mathlib

/-!
Verification development for the codemirror-languageserver repository.

The document model follows CodeMirror's Text value: a document is a non-empty
list of lines, where a line is a list of characters containing no newline.
Offsets are indices into the flat text obtained by joining the lines with a
single newline character.  LSP positions are zero-based (line, character)
pairs.  All definitions below are transcribed from the TypeScript sources
(src/utils.ts and src/plugin.ts); each definition's doc comment names the
function it embeds.
-/

set_option autoImplicit false

namespace CmLsp

/-- An LSP text position: zero-based line and character, as in the protocol
and in the repository's position utilities. -/
structure TextPos where
  line : Nat
  character : Nat
deriving DecidableEq, Repr

/-- Number of characters of the flat document text: the sum of the line
lengths plus one separator between consecutive lines.  Models the TypeScript
value doc.length of a CodeMirror Text. -/
def docLength : List (List Char) → Nat
  | [] => 0
  | [l] => l.length
  | l :: l2 :: ls => l.length + 1 + docLength (l2 :: ls)

/-- Offset of the first character of the zero-based line n; models
doc.line(n + 1).from in CodeMirror. -/
def lineFrom : List (List Char) → Nat → Nat
  | _, 0 => 0
  | [], _ + 1 => 0
  | l :: ls, n + 1 => l.length + 1 + lineFrom ls n

/-- Length of the zero-based line n; models doc.line(n + 1).length. -/
def lineLen : List (List Char) → Nat → Nat
  | [], _ => 0
  | l :: _, 0 => l.length
  | _ :: ls, n + 1 => lineLen ls n

/-- Embeds posToOffset from src/utils.ts: if pos.line is at or past the line
count, the position maps to the document end when character is 0 and is
undefined otherwise; within the document, the offset is the line's start
plus the character, undefined when that exceeds the document length. -/
def posToOffset (doc : List (List Char)) (pos : TextPos) : Option Nat :=
  if doc.length ≤ pos.line then
    if pos.character = 0 then some (docLength doc) else none
  else
    let offset := lineFrom doc pos.line + pos.character
    if docLength doc < offset then none else some offset

/-- Embeds posToOffsetOrZero from src/utils.ts: posToOffset with undefined
(and, through JavaScript truthiness, also a zero offset) replaced by 0. -/
def posToOffsetOrZero (doc : List (List Char)) (pos : TextPos) : Nat :=
  (posToOffset doc pos).getD 0

/-- Embeds offsetToPos from src/utils.ts: doc.lineAt(offset) followed by
character := offset - line.from and line := line.number - 1.  The CodeMirror
lineAt walks to the line whose span [from, from + length] contains the
offset; the recursion below does exactly that for offsets within the
document (lineAt's precondition is 0 ≤ offset ≤ doc.length). -/
def offsetToPos : List (List Char) → Nat → TextPos
  | [], offset => ⟨0, offset⟩
  | [_], offset => ⟨0, offset⟩
  | l :: l2 :: ls, offset =>
    if offset ≤ l.length then ⟨0, offset⟩
    else
      let p := offsetToPos (l2 :: ls) (offset - (l.length + 1))
      ⟨p.line + 1, p.character⟩

theorem lineFrom_add_lineLen_le (doc : List (List Char)) (n : Nat)
    (h : n < doc.length) : lineFrom doc n + lineLen doc n ≤ docLength doc := by
  induction doc generalizing n with
  | nil => simp at h
  | cons l ls ih =>
    cases n with
    | zero =>
      cases ls with
      | nil => simp [lineFrom, lineLen, docLength]
      | cons l2 ls2 => simp [lineFrom, lineLen, docLength]; omega
    | succ n =>
      cases ls with
      | nil => simp at h
      | cons l2 ls2 =>
        have hn : n < (l2 :: ls2).length := by simpa using Nat.lt_of_succ_lt_succ h
        have := ih n hn
        simp [lineFrom, lineLen, docLength]
        omega

theorem offsetToPos_lineFrom (doc : List (List Char)) (n c : Nat)
    (h : n < doc.length) (hc : c ≤ lineLen doc n) :
    offsetToPos doc (lineFrom doc n + c) = ⟨n, c⟩ := by
  induction doc generalizing n with
  | nil => simp at h
  | cons l ls ih =>
    cases n with
    | zero =>
      cases ls with
      | nil => simp [offsetToPos, lineFrom]
      | cons l2 ls2 =>
        have : c ≤ l.length := by simpa [lineLen] using hc
        simp [offsetToPos, lineFrom, this]
    | succ n =>
      cases ls with
      | nil => simp at h
      | cons l2 ls2 =>
        have hn : n < (l2 :: ls2).length := by simpa using Nat.lt_of_succ_lt_succ h
        have hc2 : c ≤ lineLen (l2 :: ls2) n := by simpa [lineLen] using hc
        have hrec := ih n hn hc2
        have hgt : ¬ (lineFrom (l :: l2 :: ls2) (n + 1) + c ≤ l.length) := by
          simp [lineFrom]; omega
        simp only [offsetToPos, if_neg hgt]
        have harg : lineFrom (l :: l2 :: ls2) (n + 1) + c - (l.length + 1)
            = lineFrom (l2 :: ls2) n + c := by
          simp [lineFrom]; omega
        rw [harg, hrec]

theorem offsetToPos_valid (doc : List (List Char)) (off : Nat)
    (hne : doc ≠ []) (hoff : off ≤ docLength doc) :
    (offsetToPos doc off).line < doc.length ∧
    (offsetToPos doc off).character ≤ lineLen doc (offsetToPos doc off).line := by
  induction doc generalizing off with
  | nil => exact absurd rfl hne
  | cons l ls ih =>
    cases ls with
    | nil =>
      constructor
      · simp [offsetToPos]
      · simpa [offsetToPos, lineLen, docLength] using hoff
    | cons l2 ls2 =>
      by_cases h : off ≤ l.length
      · constructor
        · simp [offsetToPos, h]
        · simp [offsetToPos, h, lineLen]
      · have hoff2 : off - (l.length + 1) ≤ docLength (l2 :: ls2) := by
          have : docLength (l :: l2 :: ls2) = l.length + 1 + docLength (l2 :: ls2) := by
            simp [docLength]
          omega
        have := ih (off - (l.length + 1)) (by simp) hoff2
        constructor
        · simp only [offsetToPos, if_neg h]
          simpa using this.1
        · simp only [offsetToPos, if_neg h]
          simpa [lineLen] using this.2

/-- C1: for every non-empty document and every position within the document's
bounds (line below the line count, character at most the line's length),
posToOffset succeeds and offsetToPos maps the resulting offset back to the
same position; moreover offsetToPos is total over valid offsets 0..length
inclusive, always yielding an in-bounds position. -/
theorem posToOffset_offsetToPos_roundtrip :
    (∀ (doc : List (List Char)) (pos : TextPos), doc ≠ [] →
      pos.line < doc.length → pos.character ≤ lineLen doc pos.line →
      ∃ off, posToOffset doc pos = some off ∧ offsetToPos doc off = pos) ∧
    (∀ (doc : List (List Char)) (off : Nat), doc ≠ [] → off ≤ docLength doc →
      (offsetToPos doc off).line < doc.length ∧
      (offsetToPos doc off).character ≤ lineLen doc (offsetToPos doc off).line) := by
  constructor
  · intro doc pos _ hline hchar
    refine ⟨lineFrom doc pos.line + pos.character, ?_, ?_⟩
    · have hle : lineFrom doc pos.line + pos.character ≤ docLength doc :=
        le_trans (Nat.add_le_add_left hchar _) (lineFrom_add_lineLen_le doc pos.line hline)
      simp [posToOffset, Nat.not_le.mpr hline, Nat.not_lt.mpr hle]
    · exact offsetToPos_lineFrom doc pos.line pos.character hline hchar
  · exact fun doc off => offsetToPos_valid doc off

/-- Witness for C1 at the spec's example document: lines "first line",
"second line", "third line"; position (1, 0) round-trips through offset 11,
and offset 11 is in bounds. -/
theorem posToOffset_offsetToPos_roundtrip_witness :
    (∃ off, posToOffset ["first line".toList, "second line".toList, "third line".toList]
        ⟨1, 0⟩ = some off ∧
      offsetToPos ["first line".toList, "second line".toList, "third line".toList] off
        = ⟨1, 0⟩) ∧
    (offsetToPos ["first line".toList, "second line".toList, "third line".toList] 11).line < 3 :=
  ⟨posToOffset_offsetToPos_roundtrip.1
      ["first line".toList, "second line".toList, "third line".toList] ⟨1, 0⟩
      (by decide) (by decide) (by decide),
    (posToOffset_offsetToPos_roundtrip.2
      ["first line".toList, "second line".toList, "third line".toList] 11
      (by decide) (by decide)).1⟩

/-- C2 counterexample: the claim says posToOffset returns undefined for a
character index beyond its line's length, but on the document with lines
"ab", "cd" the position (0, 3) has character 3 beyond line length 2 and
posToOffset still returns offset 3 (it only fails when the computed offset
exceeds the document length). -/
theorem posToOffset_char_beyond_line_counterexample :
    posToOffset [['a', 'b'], ['c', 'd']] ⟨0, 3⟩ = some 3 ∧
    3 > lineLen [['a', 'b'], ['c', 'd']] 0 := by decide

/-- C2 amended: posToOffset returns undefined when pos.line is at or past the
line count and the character is nonzero, returns the document length for the
end-of-document sentinel (line past the count with character 0), and for an
in-range line returns undefined exactly when the computed offset
line start + character exceeds the document length (a character beyond its
line's length whose offset still lands inside the document is mapped to that
offset rather than rejected). -/
theorem posToOffset_bounds :
    (∀ (doc : List (List Char)) (pos : TextPos), doc.length ≤ pos.line →
      pos.character ≠ 0 → posToOffset doc pos = none) ∧
    (∀ (doc : List (List Char)) (pos : TextPos), doc.length ≤ pos.line →
      pos.character = 0 → posToOffset doc pos = some (docLength doc)) ∧
    (∀ (doc : List (List Char)) (pos : TextPos), pos.line < doc.length →
      (posToOffset doc pos = none ↔ docLength doc < lineFrom doc pos.line + pos.character)) := by
  refine ⟨?_, ?_, ?_⟩
  · intro doc pos hline hchar
    simp [posToOffset, hline, hchar]
  · intro doc pos hline hchar
    simp [posToOffset, hline, hchar]
  · intro doc pos hline
    simp only [posToOffset, Nat.not_le.mpr hline, if_false]
    by_cases h : docLength doc < lineFrom doc pos.line + pos.character
    · simp [h]
    · simp [h]

/-- Witness for C2 at concrete inputs: on the document with lines "ab", "cd",
position (2, 1) is undefined, the sentinel (2, 0) maps to the length 5, and
position (1, 4) is undefined because its computed offset 7 exceeds 5. -/
theorem posToOffset_bounds_witness :
    posToOffset [['a', 'b'], ['c', 'd']] ⟨2, 1⟩ = none ∧
    posToOffset [['a', 'b'], ['c', 'd']] ⟨2, 0⟩ = some 5 ∧
    posToOffset [['a', 'b'], ['c', 'd']] ⟨1, 4⟩ = none :=
  ⟨posToOffset_bounds.1 [['a', 'b'], ['c', 'd']] ⟨2, 1⟩ (by decide) (by decide),
   by
    have h := posToOffset_bounds.2.1 [['a', 'b'], ['c', 'd']] ⟨2, 0⟩ (by decide) (by decide)
    simpa using h,
   (posToOffset_bounds.2.2 [['a', 'b'], ['c', 'd']] ⟨1, 4⟩ (by decide)).mpr (by decide)⟩

/-! ### Rename edit application (src/plugin.ts, applyRenameEdit) -/

/-- An LSP range; the field stop embeds the protocol field named end, which
is a reserved word in Lean. -/
structure TextRange where
  start : TextPos
  stop : TextPos
deriving DecidableEq, Repr

/-- An LSP TextEdit: a range to replace and the replacement text. -/
structure TextEdit where
  range : TextRange
  newText : List Char
deriving DecidableEq, Repr

/-- One entry of a WorkspaceEdit's documentChanges array: either a
TextDocumentEdit (a uri plus its edits) or one of the file operations
(create, rename, delete), which applyRenameEdit treats uniformly. -/
inductive DocumentChange where
  | textDocumentEdit (uri : String) (edits : List TextEdit)
  | fileOperation
deriving DecidableEq, Repr

/-- An LSP WorkspaceEdit; an absent changes object or documentChanges array
is embedded as the empty list, matching the TypeScript defaults
edit.changes ?? empty and edit.documentChanges ?? empty array. -/
structure WorkspaceEdit where
  changes : List (String × List TextEdit)
  documentChanges : List DocumentChange
deriving DecidableEq, Repr

/-- The editor state visible to applyRenameEdit: the document (as lines) and
the error messages displayed so far through showErrorMessage. -/
structure EditorState where
  doc : List (List Char)
  messages : List String
deriving DecidableEq, Repr

/-- Appends a user-visible error message; embeds showErrorMessage. -/
def showError (st : EditorState) (msg : String) : EditorState :=
  { st with messages := st.messages ++ [msg] }

/-- One CodeMirror change spec of a transaction: replace the flat-text span
from..to with the given insertion. -/
structure ChangeSpec where
  start : Nat
  stop : Nat
  insert : List Char
deriving DecidableEq, Repr

/-- Splits flat text into CodeMirror lines at newline characters; the result
is always non-empty. -/
def splitLines : List Char → List (List Char)
  | [] => [[]]
  | c :: cs =>
    match splitLines cs with
    | [] => [[c]]
    | l :: ls => if c = '\n' then [] :: l :: ls else (c :: l) :: ls

/-- Joins CodeMirror lines with newline separators into flat text. -/
def joinLines : List (List Char) → List Char
  | [] => []
  | [l] => l
  | l :: l2 :: ls => l ++ '\n' :: joinLines (l2 :: ls)

/-- Replaces one flat-text span. -/
def applySpec (text : List Char) (s : ChangeSpec) : List Char :=
  text.take s.start ++ s.insert ++ text.drop s.stop

/-- Embeds view.dispatch(view.state.update with a list of change specs): all
spans refer to the original document; applyRenameEdit hands the specs over
sorted by descending start offset, so folding them left to right never
shifts the spans still to be applied. -/
def dispatchChanges (st : EditorState) (specs : List ChangeSpec) : EditorState :=
  { st with doc := splitLines (specs.foldl applySpec (joinLines st.doc)) }

/-- Stable insertion step for a descending sort: an earlier element x stays
in front of a later element y unless y's key is strictly greater, matching
the JavaScript stable sort with comparator keyOf b - keyOf a. -/
def insertDesc {α : Type} (keyOf : α → Nat) (x : α) : List α → List α
  | [] => [x]
  | y :: ys => if keyOf y ≤ keyOf x then x :: y :: ys else y :: insertDesc keyOf x ys

/-- Stable sort by descending key; embeds the edits.sort call of
applyRenameEdit, whose comparator is descending by the start offset of each
edit (undefined offsets coerced to 0). -/
def sortDesc {α : Type} (keyOf : α → Nat) (l : List α) : List α :=
  l.foldr (insertDesc keyOf) []

/-- Sort key used by applyRenameEdit: posToOffset of the edit's range start,
with undefined coerced to 0. -/
def editKey (doc : List (List Char)) (e : TextEdit) : Nat :=
  (posToOffset doc e.range.start).getD 0

/-- Converts a TextEdit into a transaction change spec, coercing undefined
offsets to 0 exactly as the TypeScript does with the ?? 0 fallbacks. -/
def editToSpec (doc : List (List Char)) (e : TextEdit) : ChangeSpec :=
  ⟨(posToOffset doc e.range.start).getD 0, (posToOffset doc e.range.stop).getD 0, e.newText⟩

/-- The for-loop over documentChanges in applyRenameEdit: a TextDocumentEdit
for a foreign uri shows the multi-file message and continues; one for the
active document sorts its edits by descending start offset, dispatches them
as a single transaction and returns true; a file operation shows its message
and returns false; falling off the end of the loop reaches the trailing
return false of the function. -/
def applyDocumentChanges (activeUri : String) (st : EditorState) :
    List DocumentChange → Bool × EditorState
  | [] => (false, st)
  | .textDocumentEdit uri edits :: rest =>
    if uri ≠ activeUri then
      applyDocumentChanges activeUri
        (showError st "Multi-file rename not supported yet") rest
    else
      let sorted := sortDesc (editKey st.doc) edits
      (true, dispatchChanges st (sorted.map (editToSpec st.doc)))
  | .fileOperation :: _ =>
    (false,
      showError st "File creation, deletion, or renaming operations not supported yet")

/-- The fallback loop over the entries of the changes map in applyRenameEdit:
foreign uris show the multi-file message; entries for the active document
are sorted by descending start offset and dispatched as one transaction; the
loop never returns early, and the function then hits its trailing
return false. -/
def applyChangesMap (activeUri : String) (st : EditorState) :
    List (String × List TextEdit) → EditorState
  | [] => st
  | (uri, changes) :: rest =>
    if uri ≠ activeUri then
      applyChangesMap activeUri (showError st "Multi-file rename not supported yet") rest
    else
      let sorted := sortDesc (editKey st.doc) changes
      applyChangesMap activeUri (dispatchChanges st (sorted.map (editToSpec st.doc))) rest

/-- Embeds applyRenameEdit from src/plugin.ts: a missing edit or an edit with
neither changes nor documentChanges is rejected with a user-visible message;
documentChanges are preferred when present; otherwise the changes map is
applied and the function falls through to return false. -/
def applyRenameEdit (activeUri : String) (st : EditorState)
    (edit : Option WorkspaceEdit) : Bool × EditorState :=
  match edit with
  | none => (false, showError st "No edit returned from language server")
  | some e =>
    if e.changes.length = 0 ∧ e.documentChanges.length = 0 then
      (false, showError st "No changes to apply")
    else if e.documentChanges.length ≠ 0 then
      applyDocumentChanges activeUri st e.documentChanges
    else
      (false, applyChangesMap activeUri st e.changes)

/-- C3: the claim says a failure result implies no visible mutation, but the
changes-map fallback path of applyRenameEdit applies every edit for the
active document and still returns false: on document "abc", a WorkspaceEdit
whose changes map carries one full-range replacement with "x" mutates the
document to "x" while reporting failure.  This contradicts the function's
own doc comment, which promises true when changes were applied
successfully. -/
theorem applyRenameEdit_changes_path_bug :
    applyRenameEdit "file:///a" ⟨[['a', 'b', 'c']], []⟩
        (some ⟨[("file:///a", [⟨⟨⟨0, 0⟩, ⟨0, 3⟩⟩, ['x']⟩])], []⟩)
      = (false, ⟨[['x']], []⟩) ∧
    ([['x']] : List (List Char)) ≠ [['a', 'b', 'c']] := by decide

/-- C4: for a rename WorkspaceEdit holding two edits to the active document
at disjoint ranges (the first edit entirely before the second, with valid
offsets), applyRenameEdit produces the same result whichever order the two
edits appear in, because both orders sort to the same
descending-start-offset list before the single transaction is built. -/
theorem applyRenameEdit_order_independent
    (st : EditorState) (uri : String) (a b : TextEdit) (sa ea sb eb : Nat)
    (ha : posToOffset st.doc a.range.start = some sa)
    (ha2 : posToOffset st.doc a.range.stop = some ea)
    (hb : posToOffset st.doc b.range.start = some sb)
    (hb2 : posToOffset st.doc b.range.stop = some eb)
    (hwf : sa ≤ ea) (hdisj : ea ≤ sb) (hlt : sa < sb) :
    applyRenameEdit uri st (some ⟨[], [.textDocumentEdit uri [a, b]]⟩)
      = applyRenameEdit uri st (some ⟨[], [.textDocumentEdit uri [b, a]]⟩) := by
  have hka : editKey st.doc a = sa := by simp [editKey, ha]
  have hkb : editKey st.doc b = sb := by simp [editKey, hb]
  have hsort : sortDesc (editKey st.doc) [a, b] = sortDesc (editKey st.doc) [b, a] := by
    simp [sortDesc, insertDesc, hka, hkb, Nat.not_le.mpr hlt, Nat.le_of_lt hlt]
  simp [applyRenameEdit, applyDocumentChanges, hsort]

/-- Witness for C4 at the spec's example: renaming oldName to newName at
(0,9)-(0,16) and (1,9)-(1,16) of a two-line document gives the same result
for either edit order. -/
theorem applyRenameEdit_order_independent_witness :
    applyRenameEdit "file:///a"
        ⟨["function oldName()".toList, "  return oldName()".toList], []⟩
        (some ⟨[], [.textDocumentEdit "file:///a"
          [⟨⟨⟨0, 9⟩, ⟨0, 16⟩⟩, "newName".toList⟩,
           ⟨⟨⟨1, 9⟩, ⟨1, 16⟩⟩, "newName".toList⟩]]⟩)
      = applyRenameEdit "file:///a"
        ⟨["function oldName()".toList, "  return oldName()".toList], []⟩
        (some ⟨[], [.textDocumentEdit "file:///a"
          [⟨⟨⟨1, 9⟩, ⟨1, 16⟩⟩, "newName".toList⟩,
           ⟨⟨⟨0, 9⟩, ⟨0, 16⟩⟩, "newName".toList⟩]]⟩) :=
  applyRenameEdit_order_independent
    ⟨["function oldName()".toList, "  return oldName()".toList], []⟩ "file:///a"
    ⟨⟨⟨0, 9⟩, ⟨0, 16⟩⟩, "newName".toList⟩ ⟨⟨⟨1, 9⟩, ⟨1, 16⟩⟩, "newName".toList⟩
    9 16 28 35 (by decide) (by decide) (by decide) (by decide)
    (by decide) (by decide) (by decide)

/-! ### Document synchronization (src/plugin.ts, sendChange and the
LanguageServerPlugin constructor) -/

/-- The plugin state relevant to document synchronization: the per-document
version counter, the versions carried by the didChange notifications handed
to the client so far, and how many transport errors the catch block has
logged. -/
structure SyncState where
  documentVersion : Nat
  notified : List Nat
  logged : Nat
deriving DecidableEq, Repr

/-- The constructor of LanguageServerPlugin sets documentVersion to 0 with no
notifications sent and nothing logged. -/
def initialSyncState : SyncState := ⟨0, [], 0⟩

/-- The client.textDocumentDidChange notify as seen by sendChange: it either
resolves or rejects with a transport error; the flag fails chooses the
outcome. -/
def notifyDidChange (fails : Bool) : Except String Unit :=
  if fails then Except.error "transport error" else Except.ok ()

/-- Embeds sendChange from src/plugin.ts.  If the client is not ready the
flush silently drops.  Otherwise the notification parameters are built with
the post-increment read documentVersion++, so the counter is already
incremented when the notify settles; a rejection is caught and logged
(console.error) and never rethrown, which is why the result is always ok. -/
def sendChangeRun (ready fails : Bool) (st : SyncState) : Except String SyncState :=
  if !ready then Except.ok st
  else
    let v := st.documentVersion
    let st1 : SyncState := ⟨v + 1, st.notified ++ [v], st.logged⟩
    match notifyDidChange fails with
    | Except.error _ => Except.ok { st1 with logged := st1.logged + 1 }
    | Except.ok _ => Except.ok st1

/-- The state after one flush; the error branch is unreachable because
sendChangeRun catches every failure. -/
def flushResult (ready fails : Bool) (st : SyncState) : SyncState :=
  match sendChangeRun ready fails st with
  | Except.ok st2 => st2
  | Except.error _ => st

/-- Runs a sequence of flushes from the freshly constructed plugin; each
event records whether the client was ready at that moment and whether the
transport failed. -/
def runFlushes (events : List (Bool × Bool)) : SyncState :=
  events.foldl (fun st e => flushResult e.1 e.2 st) initialSyncState

theorem runFlushes_invariant (events : List (Bool × Bool)) (st : SyncState)
    (h : st.notified = List.range st.documentVersion) :
    (events.foldl (fun st e => flushResult e.1 e.2 st) st).notified
      = List.range (events.foldl (fun st e => flushResult e.1 e.2 st) st).documentVersion := by
  induction events generalizing st with
  | nil => exact h
  | cons e rest ih =>
    apply ih
    cases hr : e.1 with
    | false => simpa [flushResult, sendChangeRun, hr] using h
    | true =>
      cases hf : e.2 with
      | false =>
        simp [flushResult, sendChangeRun, hr, hf, notifyDidChange, h, List.range_succ]
      | true =>
        simp [flushResult, sendChangeRun, hr, hf, notifyDidChange, h, List.range_succ]

/-- C5: the version counter starts at 0; after any sequence of flushes the
versions carried by the didChange notifications are exactly 0, 1, 2, ... up
to the current counter, so each flushed notification consumed exactly one
version and successive notifications carry strictly increasing versions; a
flush while the client is not ready returns without error, sends no
notification and leaves the counter unchanged. -/
theorem documentVersion_monotone :
    initialSyncState.documentVersion = 0 ∧
    (∀ events : List (Bool × Bool),
      (runFlushes events).notified = List.range (runFlushes events).documentVersion) ∧
    (∀ events : List (Bool × Bool),
      (runFlushes events).notified.Pairwise (· < ·)) ∧
    (∀ (st : SyncState) (fails : Bool), sendChangeRun false fails st = Except.ok st) := by
  refine ⟨rfl, ?_, ?_, ?_⟩
  · intro events
    exact runFlushes_invariant events initialSyncState rfl
  · intro events
    have h := runFlushes_invariant events initialSyncState rfl
    unfold runFlushes
    rw [h]
    exact List.pairwise_lt_range _
  · intro st fails
    simp [sendChangeRun]

/-- C9: sendChange never surfaces an error to its caller: for every state and
every transport outcome the run returns ok, and when the client was ready
the version counter has already been incremented and the notification's
version recorded even if the transport failed, so a failed flush still
consumes a version number. -/
theorem sendChange_catches_and_keeps_increment :
    ∀ (ready fails : Bool) (st : SyncState), ∃ st2,
      sendChangeRun ready fails st = Except.ok st2 ∧
      (ready = true →
        st2.documentVersion = st.documentVersion + 1 ∧
        st2.notified = st.notified ++ [st.documentVersion]) := by
  intro ready fails st
  cases ready with
  | false => exact ⟨st, by simp [sendChangeRun], by simp⟩
  | true =>
    cases fails with
    | false =>
      refine ⟨⟨st.documentVersion + 1, st.notified ++ [st.documentVersion], st.logged⟩, ?_, ?_⟩
      · simp [sendChangeRun, notifyDidChange]
      · intro _; exact ⟨rfl, rfl⟩
    | true =>
      refine ⟨⟨st.documentVersion + 1, st.notified ++ [st.documentVersion], st.logged + 1⟩, ?_, ?_⟩
      · simp [sendChangeRun, notifyDidChange]
      · intro _; exact ⟨rfl, rfl⟩

/-- Witness for C9: a ready flush over a failing transport from version 5
returns ok with the counter at 6 and version 5 recorded. -/
theorem sendChange_catches_and_keeps_increment_witness :
    ∃ st2, sendChangeRun true true ⟨5, [0, 1, 2, 3, 4], 0⟩ = Except.ok st2 ∧
      (true = true → st2.documentVersion = 5 + 1 ∧ st2.notified = [0, 1, 2, 3, 4] ++ [5]) :=
  sendChange_catches_and_keeps_increment true true ⟨5, [0, 1, 2, 3, 4], 0⟩

/-! ### Feature request guards (src/plugin.ts, requestHoverTooltip,
requestCompletion, requestDefinition, requestRename) -/

/-- An observable effect of a feature request: a message or request sent to
the language server, or an error message shown to the user. -/
inductive LSPEffect where
  | request (method : String)
  | message (text : String)
deriving DecidableEq, Repr

/-- The facets and client flags each feature request consults before doing
anything: the per-feature enablement facet, the client's ready flag, and the
per-feature server capability. -/
structure FeatureCtx where
  ready : Bool
  hoverProvider : Bool
  completionProvider : Bool
  definitionProvider : Bool
  renameProvider : Bool
  hoverEnabled : Bool
  completionEnabled : Bool
  definitionEnabled : Bool
  renameEnabled : Bool
deriving DecidableEq, Repr

/-- Embeds the guard structure of requestHoverTooltip: null when the hover
facet is off; null when the client is not ready or hover is not provided;
otherwise the request is issued and the outcome depends on the server, here
abstracted as the serverResult argument (the body past the guards builds a
tooltip out of the response and is irrelevant to the guard claims). -/
def requestHoverTooltip {α : Type} (ctx : FeatureCtx) (serverResult : Option α) :
    Option α × List LSPEffect :=
  if !ctx.hoverEnabled then (none, [])
  else if !(ctx.ready && ctx.hoverProvider) then (none, [])
  else (serverResult, [LSPEffect.request "textDocument/hover"])

/-- Embeds the guard structure of requestCompletion: null when the
completion facet is off; null when the client is not ready or completion is
not provided; otherwise the request is issued. -/
def requestCompletion {α : Type} (ctx : FeatureCtx) (serverResult : Option α) :
    Option α × List LSPEffect :=
  if !ctx.completionEnabled then (none, [])
  else if !(ctx.ready && ctx.completionProvider) then (none, [])
  else (serverResult, [LSPEffect.request "textDocument/completion"])

/-- Embeds the guard structure of requestDefinition: undefined when the
definition facet is off; undefined when the client is not ready or
definitions are not provided; otherwise the request is issued.  The
TypeScript returns undefined rather than null on the guard paths; both are
embedded as none. -/
def requestDefinition {α : Type} (ctx : FeatureCtx) (serverResult : Option α) :
    Option α × List LSPEffect :=
  if !ctx.definitionEnabled then (none, [])
  else if !(ctx.ready && ctx.definitionProvider) then (none, [])
  else (serverResult, [LSPEffect.request "textDocument/definition"])

/-- Embeds the guard structure of requestRename: silent return when the
rename facet is off; when the client is not ready it shows the error message
"Language server not ready" and returns; when rename is not provided it
shows "Rename not supported by language server" and returns; otherwise the
prepare-rename request is issued. -/
def requestRename {α : Type} (ctx : FeatureCtx) (serverResult : Option α) :
    Option α × List LSPEffect :=
  if !ctx.renameEnabled then (none, [])
  else if !ctx.ready then (none, [LSPEffect.message "Language server not ready"])
  else if !ctx.renameProvider then
    (none, [LSPEffect.message "Rename not supported by language server"])
  else (serverResult, [LSPEffect.request "textDocument/prepareRename"])

/-- C6 counterexample: with rename enabled and the client not ready,
requestRename does not silently no-op: it returns undefined but also shows
the user-visible error "Language server not ready", so its effect list is
not empty. -/
theorem requestRename_not_ready_shows_error :
    requestRename (α := Nat) ⟨false, true, true, true, true, true, true, true, true⟩ (some 0)
      = (none, [LSPEffect.message "Language server not ready"]) ∧
    ([LSPEffect.message "Language server not ready"] : List LSPEffect) ≠ [] := by decide

/-- C6 amended: before the client is ready no feature request reaches the
server and all four return a nullish result; hover, completion and
definition produce no observable effect at all, while rename (when its facet
is enabled) additionally displays the "Language server not ready" error
message to the user instead of failing. -/
theorem feature_requests_before_ready {α : Type} (ctx : FeatureCtx)
    (serverResult : Option α) (h : ctx.ready = false) :
    requestHoverTooltip ctx serverResult = (none, []) ∧
    requestCompletion ctx serverResult = (none, []) ∧
    requestDefinition ctx serverResult = (none, []) ∧
    (requestRename ctx serverResult).1 = none ∧
    (∀ m, LSPEffect.request m ∉ (requestRename ctx serverResult).2) ∧
    (requestRename ctx serverResult).2
      = (if ctx.renameEnabled then [LSPEffect.message "Language server not ready"] else []) := by
  refine ⟨?_, ?_, ?_, ?_, ?_, ?_⟩ <;>
    cases hre : ctx.renameEnabled <;>
      simp [requestHoverTooltip, requestCompletion, requestDefinition, requestRename, h, hre]

/-- Witness for C6 as amended, at the fully enabled context with the client
not ready. -/
theorem feature_requests_before_ready_witness :
    requestHoverTooltip (α := Nat)
        ⟨false, true, true, true, true, true, true, true, true⟩ (some 3) = (none, []) ∧
    requestCompletion (α := Nat)
        ⟨false, true, true, true, true, true, true, true, true⟩ (some 3) = (none, []) ∧
    requestDefinition (α := Nat)
        ⟨false, true, true, true, true, true, true, true, true⟩ (some 3) = (none, []) ∧
    (requestRename (α := Nat)
        ⟨false, true, true, true, true, true, true, true, true⟩ (some 3)).1 = none ∧
    (∀ m, LSPEffect.request m ∉ (requestRename (α := Nat)
        ⟨false, true, true, true, true, true, true, true, true⟩ (some 3)).2) ∧
    (requestRename (α := Nat)
        ⟨false, true, true, true, true, true, true, true, true⟩ (some 3)).2
      = (if true then [LSPEffect.message "Language server not ready"] else []) :=
  feature_requests_before_ready
    ⟨false, true, true, true, true, true, true, true, true⟩ (some 3) rfl

/-! ### Plugin attachment (src/plugin.ts, attachPlugin and detachPlugin) -/

/-- The client state relevant to plugin attachment: the attached plugin
list, the autoClose option, and how many times close() has been called on
the transport. -/
structure ClientState where
  plugins : List Nat
  autoClose : Bool
  closes : Nat
deriving DecidableEq, Repr

/-- Embeds attachPlugin: push onto the plugin list. -/
def attachPlugin (st : ClientState) (p : Nat) : ClientState :=
  { st with plugins := st.plugins ++ [p] }

/-- Embeds detachPlugin: indexOf returning -1 leaves everything untouched;
otherwise splice removes the first occurrence and, when autoClose is set,
the transport is closed. -/
def detachPlugin (st : ClientState) (p : Nat) : ClientState :=
  if st.plugins.contains p then
    let st1 : ClientState := { st with plugins := st.plugins.erase p }
    if st1.autoClose then { st1 with closes := st1.closes + 1 } else st1
  else st

/-- C10: detaching a plugin that is not attached leaves the client state
unchanged (the list is untouched and no close happens even with autoClose
set), and detaching the same plugin twice after at most one attachment
closes the transport at most once. -/
theorem detachPlugin_absent_noop :
    (∀ (st : ClientState) (p : Nat), p ∉ st.plugins → detachPlugin st p = st) ∧
    (∀ (st : ClientState) (p : Nat), st.plugins.count p ≤ 1 →
      (detachPlugin (detachPlugin st p) p).closes ≤ st.closes + 1) := by
  constructor
  · intro st p hp
    simp [detachPlugin, hp]
  · intro st p hcount
    by_cases hp : p ∈ st.plugins
    · have hzero : st.plugins.count p = 1 := by
        have := List.count_pos_iff.mpr hp
        omega
      have herase : (st.plugins.erase p).count p = 0 := by
        rw [List.count_erase_self, hzero]
      have hnotmem : p ∉ st.plugins.erase p := by
        simpa using List.count_eq_zero.mp herase
      cases hac : st.autoClose with
      | false =>
        simp [detachPlugin, hp, hac, hnotmem]
      | true =>
        simp [detachPlugin, hp, hac, hnotmem]
    · simp [detachPlugin, hp]

/-- Witness for C10: detaching plugin 9 (absent) from a client holding
plugin 7 changes nothing, and double-detaching plugin 7 with autoClose on
closes at most once. -/
theorem detachPlugin_absent_noop_witness :
    detachPlugin ⟨[7], true, 0⟩ 9 = ⟨[7], true, 0⟩ ∧
    (detachPlugin (detachPlugin ⟨[7], true, 0⟩ 7) 7).closes ≤ 0 + 1 :=
  ⟨detachPlugin_absent_noop.1 ⟨[7], true, 0⟩ 9 (by decide),
   detachPlugin_absent_noop.2 ⟨[7], true, 0⟩ 7 (by decide)⟩

/-! ### Completion prefix patterns (src/utils.ts, toSet and prefixMatch) -/

/-- An LSP completion item restricted to the fields the embedded code reads:
label, the newText of an attached textEdit, sortText and filterText. -/
structure CompletionItem where
  label : List Char
  textEditNewText : Option (List Char)
  sortText : Option (List Char)
  filterText : Option (List Char)
deriving DecidableEq, Repr

/-- A regex word character, the JavaScript character class of letters,
digits and underscore. -/
def isWordChar (c : Char) : Bool := c.isAlpha || c.isDigit || c = '_'

/-- A regex whitespace character (the ASCII portion of the JavaScript
class). -/
def isSpaceChar (c : Char) : Bool :=
  c = ' ' || c = '\t' || c = '\n' || c = '\r' || c = '\x0b' || c = '\x0c'

/-- JavaScript Set insertion: append if not yet present, preserving
insertion order. -/
def addChar (s : List Char) (c : Char) : List Char :=
  if c ∈ s then s else s ++ [c]

/-- The replace of every character that is neither a word nor a whitespace
character by its backslash-escaped form, as toSet does before closing the
character class. -/
def escapeClassChars : List Char → List Char
  | [] => []
  | c :: cs =>
    (if !isWordChar c && !isSpaceChar c then ['\\', c] else [c]) ++ escapeClassChars cs

/-- Embeds toSet from src/utils.ts: joins the collected characters, folds
every word character into a single escaped w class, escapes the remaining
non-word non-space characters, and wraps the result in brackets. -/
def toSet (chars : List Char) : List Char :=
  let words := chars.any isWordChar
  let flat := if words then chars.filter (fun c => !isWordChar c) else chars
  '[' :: ((if words then ['\\', 'w'] else []) ++ escapeClassChars flat ++ [']'])

/-- The text prefixMatch analyses for one item: textEdit.newText when
present and non-empty (JavaScript || lets an empty string fall through),
otherwise the label. -/
def itemText (item : CompletionItem) : List Char :=
  match item.textEditNewText with
  | some t => if t = [] then item.label else t
  | none => item.label

/-- The two character sets prefixMatch collects: the first character of each
item's text and every remaining character, both in insertion order. -/
def collectChars (items : List CompletionItem) : List Char × List Char :=
  items.foldl
    (fun fr item =>
      match itemText item with
      | [] => fr
      | c :: cs => (addChar fr.1 c, cs.foldl addChar fr.2))
    ([], [])

/-- Embeds prefixMatch from src/utils.ts: builds the regex source
first-class rest-class star dollar and returns the anchored and unanchored
patterns (as their source strings).  The result type is optional because
the specification claims an undefined result for some inputs; the body, like
the TypeScript one, ends in a single unconditional return of the pair. -/
def prefixMatch (items : List CompletionItem) : Option (List Char × List Char) :=
  let fr := collectChars items
  let source := toSet fr.1 ++ toSet fr.2 ++ ['*', '$']
  some ('^' :: source, source)

/-- C7 counterexample: on the empty items array prefixMatch does not return
undefined; it returns the pattern pair built from two empty character
classes. -/
theorem prefixMatch_empty_not_undefined :
    prefixMatch [] = some ("^[][]*$".toList, "[][]*$".toList) ∧
    prefixMatch [] ≠ none := by decide

/-- C7 amended: prefixMatch never returns undefined: for every items array,
also the empty one and arrays without any shared prefix structure, it
returns a pair of patterns (for the empty array the character classes are
empty and the anchored pattern matches no string; the caller's falsiness
guard on the second pattern is therefore never taken). -/
theorem prefixMatch_total :
    (∀ items : List CompletionItem, (prefixMatch items).isSome = true) ∧
    prefixMatch [] = some ("^[][]*$".toList, "[][]*$".toList) := by
  constructor
  · intro items
    simp [prefixMatch]
  · decide

/-! ### Completion ranking (completion.ts, sortCompletionItems) -/

/-- The effective sort key of an item: sortText when supplied, otherwise the
label. -/
def sortKeyOf (item : CompletionItem) : List Char := item.sortText.getD item.label

/-- A token made only of word characters (the regex word-only test the
filter step applies). -/
def isWordToken (t : List Char) : Bool := !t.isEmpty && t.all isWordChar

/-- Lowercases a character list. -/
def lowerList (l : List Char) : List Char := l.map Char.toLower

/-- Lexicographic strict order on character lists by code point. -/
def ltCL : List Char → List Char → Bool
  | [], [] => false
  | [], _ :: _ => true
  | _ :: _, [] => false
  | a :: as, b :: bs => if a < b then true else if b < a then false else ltCL as bs

/-- Whether the item's effective key starts with the exact-case typed
token. -/
def tokenHit (token : Option (List Char)) (i : CompletionItem) : Bool :=
  match token with
  | some t => t.isPrefixOf (sortKeyOf i)
  | none => false

/-- An assignment-style label (ends in an equals sign), the example the
specification gives for a language-specific preference. -/
def assignStyle (i : CompletionItem) : Bool :=
  match i.label.getLast? with
  | some c => c = '='
  | none => false

/-- Whether the effective sort key begins with an underscore. -/
def underscored (i : CompletionItem) : Bool :=
  match sortKeyOf i with
  | c :: _ => c = '_'
  | [] => false

/-- Modelled from the spec: the ranking comparator of the repository's
completion module (completion.ts, exercised by its test file but absent
from the sources).  In order: items whose sortText-or-label starts with the
exact-case typed token come first; for python, assignment-style labels are
preferred; items whose effective key begins with an underscore come last;
everything else is ordered by the protocol-supplied sortText-or-label,
compared case-insensitively as the completion tests fix. -/
def precedesItem (token : Option (List Char)) (languageId : String)
    (a b : CompletionItem) : Bool :=
  if tokenHit token a && !tokenHit token b then true
  else if tokenHit token b && !tokenHit token a then false
  else if languageId == "python" && assignStyle a && !assignStyle b then true
  else if languageId == "python" && assignStyle b && !assignStyle a then false
  else if underscored a && !underscored b then false
  else if underscored b && !underscored a then true
  else ltCL (lowerList (sortKeyOf a)) (lowerList (sortKeyOf b))

/-- Stable insertion for a sort by a strict precedence test: an earlier
element stays in front of a later one unless the later one strictly
precedes it. -/
def insertRanked {α : Type} (pr : α → α → Bool) (x : α) : List α → List α
  | [] => [x]
  | y :: ys => if pr y x then y :: insertRanked pr x ys else x :: y :: ys

/-- Stable sort by a strict precedence test. -/
def rankSort {α : Type} (pr : α → α → Bool) (l : List α) : List α :=
  l.foldr (insertRanked pr) []

/-- Modelled from the spec: sortCompletionItems of the repository's
completion module (completion.ts, absent from the sources; only its tests
remain).  When the typed token consists only of word characters, items are
filtered to those whose filterText-or-label case-insensitively starts with
it; the survivors are ranked by the precedence comparator. -/
def sortCompletionItems (items : List CompletionItem) (token : Option (List Char))
    (languageId : String) : List CompletionItem :=
  let filtered :=
    match token with
    | some t =>
      if isWordToken t then
        items.filter
          (fun i => (lowerList t).isPrefixOf (lowerList (i.filterText.getD i.label)))
      else items
    | none => items
  rankSort (precedesItem token languageId) filtered

/-- The item with label test and sortText 0 from the ranking example. -/
def itemTest : CompletionItem := ⟨"test".toList, none, some "0".toList, none⟩

/-- The item with label zebra and sortText 1 from the ranking example. -/
def itemZebra : CompletionItem := ⟨"zebra".toList, none, some "1".toList, none⟩

/-- The item with label alpha and sortText 2 from the ranking example. -/
def itemAlpha : CompletionItem := ⟨"alpha".toList, none, some "2".toList, none⟩

/-- All six orderings of the three example items. -/
def rankingExampleOrders : List (List CompletionItem) :=
  [[itemTest, itemZebra, itemAlpha], [itemTest, itemAlpha, itemZebra],
   [itemZebra, itemTest, itemAlpha], [itemZebra, itemAlpha, itemTest],
   [itemAlpha, itemTest, itemZebra], [itemAlpha, itemZebra, itemTest]]

/-- C8: for every ordering of the items test (sortText 0), zebra
(sortText 1), alpha (sortText 2), the ranking yields the labels test,
zebra, alpha: the sortText order, independent of the input order. -/
theorem completion_ranking_sortText_order :
    ∀ l ∈ rankingExampleOrders,
      (sortCompletionItems l none "javascript").map CompletionItem.label
        = ["test".toList, "zebra".toList, "alpha".toList] := by decide

/-- Witness for C8 at one concrete ordering (the reversed one). -/
theorem completion_ranking_sortText_order_witness :
    (sortCompletionItems [itemAlpha, itemZebra, itemTest] none "javascript").map
      CompletionItem.label = ["test".toList, "zebra".toList, "alpha".toList] :=
  completion_ranking_sortText_order [itemAlpha, itemZebra, itemTest] (by decide)

end CmLsp
